import Mathlib

/-!
Verification of core algorithms of the vox version-control engine.

Each Rust function under scrutiny is shallowly embedded as a Lean
definition operating on `List Nat` byte sequences (every byte `< 256`,
machine integers are modelled as `Nat` with explicit `% 2^w` at the
points where the source truncates).  Definitions are translated from
the source files; the theorems at the end of the file settle the
spec claims against these definitions.
-/

set_option maxRecDepth 100000

namespace Vox

/-! ## Machine-integer helpers -/

/-- Truncation to 32 bits, the effect of Rust's `as u32` cast. -/
def u32 (n : Nat) : Nat := n % 2 ^ 32

/-- Truncation to 64 bits, the effect of Rust's `as u64` cast. -/
def u64 (n : Nat) : Nat := n % 2 ^ 64

/-- Big-endian byte decoding (`u32::from_be_bytes` and friends). -/
def fromBE (bs : List Nat) : Nat := bs.foldl (fun a b => a * 256 + b) 0

/-- Big-endian encoding of `n` into `w` bytes (`to_be_bytes`). -/
def toBE (w n : Nat) : List Nat :=
  (List.range w).map (fun i => (n >>> (8 * (w - 1 - i))) &&& 255)

/-! ## SHA-1 (the `sha1` crate as used by the source)

The source addresses objects with `Sha1::digest` / `Sha1::new` +
`update` + `finalize`, rendered lowercase hex via `format!("{:x}", _)`.
This is standard SHA-1 over the fed bytes, embedded here over
`List Nat`. -/

/-- 32-bit left rotation. -/
def rotl32 (x k : Nat) : Nat := ((x <<< k) % 2 ^ 32) ||| (x >>> (32 - k))

/-- 32-bit complement. -/
def not32 (x : Nat) : Nat := x ^^^ 0xFFFFFFFF

/-- SHA-1 message padding: append `0x80`, zeros to 56 mod 64, then the
64-bit big-endian bit length. -/
def sha1Pad (msg : List Nat) : List Nat :=
  msg ++ 0x80 :: List.replicate ((119 - msg.length % 64) % 64) 0
      ++ toBE 8 (8 * msg.length)

/-- Split a byte list into big-endian 32-bit words (fuelled). -/
def toWordsGo : Nat → List Nat → List Nat
  | _, [] => []
  | 0, _ => []
  | f + 1, bs => fromBE (bs.take 4) :: toWordsGo f (bs.drop 4)

/-- Message-schedule extension of the first 16 words to 80, kept in
reverse order while building: `w[i] = rotl1 (w[i-3]^w[i-8]^w[i-14]^w[i-16])`. -/
def sha1ExtendGo : Nat → List Nat → List Nat
  | 0, acc => acc.reverse
  | f + 1, acc =>
    sha1ExtendGo f
      (rotl32 (acc.getD 2 0 ^^^ acc.getD 7 0 ^^^ acc.getD 13 0 ^^^ acc.getD 15 0) 1 :: acc)

/-- The 80 SHA-1 rounds over one message schedule. -/
def sha1Rounds : Nat → List Nat → Nat × Nat × Nat × Nat × Nat → Nat × Nat × Nat × Nat × Nat
  | _, [], st => st
  | i, w :: ws, (a, b, c, d, e) =>
    let f :=
      if i < 20 then (b &&& c) ||| (not32 b &&& d)
      else if i < 40 then b ^^^ c ^^^ d
      else if i < 60 then (b &&& c) ||| (b &&& d) ||| (c &&& d)
      else b ^^^ c ^^^ d
    let k :=
      if i < 20 then 0x5A827999
      else if i < 40 then 0x6ED9EBA1
      else if i < 60 then 0x8F1BBCDC
      else 0xCA62C1D6
    let tmp := (rotl32 a 5 + f + e + k + w) % 2 ^ 32
    sha1Rounds (i + 1) ws (tmp, a, rotl32 b 30, c, d)

/-- Process one 64-byte block into the running state. -/
def sha1Compress (st : Nat × Nat × Nat × Nat × Nat) (block : List Nat) :
    Nat × Nat × Nat × Nat × Nat :=
  let ws := sha1ExtendGo 64 (toWordsGo 16 block).reverse
  match st, sha1Rounds 0 ws st with
  | (h0, h1, h2, h3, h4), (a, b, c, d, e) =>
    ((h0 + a) % 2 ^ 32, (h1 + b) % 2 ^ 32, (h2 + c) % 2 ^ 32,
     (h3 + d) % 2 ^ 32, (h4 + e) % 2 ^ 32)

/-- Fold all 64-byte blocks (fuelled; fuel bounds the block count). -/
def sha1Blocks : Nat → List Nat → Nat × Nat × Nat × Nat × Nat → Nat × Nat × Nat × Nat × Nat
  | _, [], st => st
  | 0, _, st => st
  | f + 1, bs, st => sha1Blocks f (bs.drop 64) (sha1Compress st (bs.take 64))

/-- SHA-1 digest as the five 32-bit state words. -/
def sha1Words (msg : List Nat) : Nat × Nat × Nat × Nat × Nat :=
  let p := sha1Pad msg
  sha1Blocks (p.length) p (0x67452301, 0xEFCDAB89, 0x98BADCFE, 0x10325476, 0xC3D2E1F0)

/-- Lowercase hex digit. -/
def hexDigit (n : Nat) : Char := Char.ofNat (if n < 10 then 48 + n else 87 + n)

/-- Eight lowercase hex digits of a 32-bit word. -/
def toHex8 (n : Nat) : List Char :=
  (List.range 8).map (fun i => hexDigit ((n >>> (4 * (7 - i))) &&& 15))

/-- SHA-1 digest rendered as 40 lowercase hex characters, the
`format!("{:x}", hasher.finalize())` of the source. -/
def sha1Hex (msg : List Nat) : String :=
  match sha1Words msg with
  | (h0, h1, h2, h3, h4) =>
    String.mk (toHex8 h0 ++ toHex8 h1 ++ toHex8 h2 ++ toHex8 h3 ++ toHex8 h4)

/-- SHA-1 digest as 20 raw bytes (`Sha1::digest`). -/
def sha1Bytes (msg : List Nat) : List Nat :=
  match sha1Words msg with
  | (h0, h1, h2, h3, h4) => toBE 4 h0 ++ toBE 4 h1 ++ toBE 4 h2 ++ toBE 4 h3 ++ toBE 4 h4

/-! ## Blob hashing (src/objects/blob.rs, src/storage/objects/blob.rs)

`Blob::serialize` returns the raw data unchanged; `Blob::hash` feeds
only `serialize()` — the payload, with no `"blob <len>\0"` header —
to SHA-1.  `<Blob as Storable>::save` likewise hashes `self.data`
alone (the header is added only to the zlib-compressed stored bytes,
after the hash has been fixed). -/

/-- `Blob::hash` (src/objects/blob.rs:97-101): SHA-1 of the payload only. -/
def blobHash (data : List Nat) : String := sha1Hex data

/-- The hash under which `<Blob as Storable>::save`
(src/storage/objects/blob.rs:128-152) stores a blob: also SHA-1 of
the payload only. -/
def blobSaveHash (data : List Nat) : String := sha1Hex data

/-- ASCII bytes of the decimal rendering of `n` (`format!("{}")`). -/
def decimalBytes (n : Nat) : List Nat := (Nat.toDigits 10 n).map Char.toNat

/-- The Git-style object header `"<type> <len>\0"` as bytes, as the spec
prescribes for content addressing. -/
def objectHeader (ty : List Nat) (payloadLen : Nat) : List Nat :=
  ty ++ [32] ++ decimalBytes payloadLen ++ [0]

/-- The payload bytes of the spec scenario S1: `"hello\n"`. -/
def helloBytes : List Nat := [104, 101, 108, 108, 111, 10]

/-- ASCII bytes of `"blob"`. -/
def blobTypeBytes : List Nat := [98, 108, 111, 98]

/-! ## Result type for fallible Rust code

`DRes.ok`/`DRes.err` are `Ok`/`Err` of `anyhow::Result`; `DRes.crash`
marks a Rust panic (an unchecked slice or similar), so that panic
freedom is a provable property of the embedding rather than an
artifact of it. -/

inductive DRes (α : Type) where
  | ok (a : α)
  | err (msg : String)
  | crash
  deriving DecidableEq, Repr

def dbind {α β : Type} : DRes α → (α → DRes β) → DRes β
  | .ok a, f => f a
  | .err m, _ => .err m
  | .crash, _ => .crash

instance : Monad DRes where
  pure := DRes.ok
  bind := dbind

/-- `&xs[a..b]`: `some` slice when in range, else the access panics. -/
def listSlice (xs : List Nat) (a b : Nat) : Option (List Nat) :=
  if a ≤ b ∧ b ≤ xs.length then some ((xs.drop a).take (b - a)) else none

/-! ## Delta codec (src/storage/objects/delta.rs)

The parser state `(data, position)` is embedded as the unread suffix
of the delta stream; every helper returns the value read together
with the remaining suffix. -/

/-- A parsed delta instruction (`DeltaOp`). -/
inductive DeltaOp where
  | copy (offset length : Nat)
  | insert (data : List Nat)
  deriving DecidableEq, Repr

/-- `Delta::read_size` (delta.rs:197-212): MSB-continuation varint with
an explicit guard against shifts past the usize width. -/
def readSizeGo : List Nat → Nat → Nat → DRes (Nat × List Nat)
  | [], _, _ => .err "Unexpected end of delta"
  | b :: rest, shift, acc =>
    let acc' := acc ||| (((b &&& 0x7F) <<< shift) % 2 ^ 64)
    if b &&& 0x80 == 0 then .ok (acc', rest)
    else if shift + 7 ≥ 64 then .err "Variable-length size exceeds maximum for usize"
    else readSizeGo rest (shift + 7) acc'

def readSize (rest : List Nat) : DRes (Nat × List Nat) := readSizeGo rest 0 0

/-- The conditional byte reads shared by the two loops of
`Delta::parse_copy_op` (delta.rs:88-151): for each index `i`, a byte
follows iff bit `i` of `cmd` is set, contributing `<< ((i - shiftBase) * 8)`. -/
def parseCopyLoop (cmd : Nat) : List Nat → Nat → Nat → List Nat → DRes (Nat × List Nat)
  | [], _, acc, rest => .ok (acc, rest)
  | i :: is, shiftBase, acc, rest =>
    if cmd &&& (1 <<< i) ≠ 0 then
      match rest with
      | [] => .err "Unexpected end of delta"
      | b :: rest' => parseCopyLoop cmd is shiftBase (acc ||| (b <<< ((i - shiftBase) * 8))) rest'
    else parseCopyLoop cmd is shiftBase acc rest

/-- `Delta::parse_copy_op`: offset from bits 0-3, length from bits 4-6,
with decoded length 0 meaning `0x10000`. -/
def parseCopyOp (cmd : Nat) (rest : List Nat) : DRes ((Nat × Nat) × List Nat) := do
  let (off, r1) ← parseCopyLoop cmd [0, 1, 2, 3] 0 0 rest
  let (len, r2) ← parseCopyLoop cmd [4, 5, 6] 4 0 r1
  pure ((off, if len = 0 then 0x10000 else len), r2)

/-- `Delta::parse_insert_data` (delta.rs:165-176): `cmd` literal bytes
follow; reading past the end of the delta is an error. -/
def parseInsertData (cmd : Nat) (rest : List Nat) : DRes (List Nat × List Nat) :=
  if rest.length < cmd then .err "Insert operation overflows delta data"
  else .ok (rest.take cmd, rest.drop cmd)

/-- One iteration of the `Delta::parse_ops` loop body, dispatching on
bit 7 of the instruction byte. -/
def parseOp (cmd : Nat) (rest : List Nat) : DRes (DeltaOp × List Nat) :=
  if cmd &&& 0x80 ≠ 0 then
    dbind (parseCopyOp cmd rest) (fun x => .ok (DeltaOp.copy x.1.1 x.1.2, x.2))
  else
    dbind (parseInsertData cmd rest) (fun x => .ok (DeltaOp.insert x.1, x.2))

/-- `Delta::parse_ops` (delta.rs:56-75), fuelled by the stream length:
each iteration consumes at least the instruction byte, so
`rest.length` fuel always suffices. -/
def parseOpsGo : Nat → List Nat → DRes (List DeltaOp)
  | _, [] => .ok []
  | 0, _ :: _ => .err "out of fuel"
  | f + 1, cmd :: rest => do
    let (op, rest') ← parseOp cmd rest
    let ops ← parseOpsGo f rest'
    pure (op :: ops)

def parseOps (rest : List Nat) : DRes (List DeltaOp) := parseOpsGo rest.length rest

/-- Rust `usize::MAX` on the 64-bit targets the source is built for. -/
def USIZE_MAX : Nat := 2 ^ 64 - 1

/-- Rust `isize::MAX` on the same targets: `Vec::with_capacity` panics
with "capacity overflow" when the requested capacity exceeds this
many bytes (one byte per element for `Vec<u8>`). -/
def ISIZE_MAX : Nat := 2 ^ 63 - 1

/-- The application loop of `apply_delta` (delta.rs:254-274): COPY
checks `offset.checked_add(length)` and the range against the base
before the (then panic-free) slice; INSERT appends its literal data. -/
def applyOps (base : List Nat) : List DeltaOp → List Nat → DRes (List Nat)
  | [], acc => .ok acc
  | .copy off len :: ops, acc =>
    if off + len > USIZE_MAX then .err "Copy length overflow"
    else if off ≥ base.length ∨ off + len > base.length then
      .err "Copy range exceeds base size"
    else
      match listSlice base off (off + len) with
      | some s => applyOps base ops (acc ++ s)
      | none => .crash
  | .insert d :: ops, acc => applyOps base ops (acc ++ d)

/-- `apply_delta` (delta.rs:233-286): parse both header sizes, check
the base size, parse all operations, allocate the result vector,
apply the operations, check the result size.  The allocation
`Vec::with_capacity(result_size)` (delta.rs:254) panics with
"capacity overflow" when the declared result size exceeds
`isize::MAX` bytes — attacker-reachable, since `read_size` admits
varints up to `2^64 - 1`; allocation failure below that bound
(an abort on memory exhaustion) is outside the embedding. -/
def applyDelta (base delta : List Nat) : DRes (List Nat) := do
  let (baseSize, r1) ← readSize delta
  let (resultSize, r2) ← readSize r1
  if base.length ≠ baseSize then .err "Base size mismatch" else do
  let ops ← parseOps r2
  if ISIZE_MAX < resultSize then .crash else do
  let result ← applyOps base ops []
  if result.length ≠ resultSize then .err "Result size mismatch" else pure result

/-! ## Pack-local delta applier (src/storage/objects/pack.rs:233-293)

`pack.rs` carries its own private `apply_delta`, and
`Packfile::apply_deltas` (pack.rs:176-197) resolves every `Delta`
object through it (the module imports nothing from `delta.rs`).  Its
COPY decoding masks the command byte with `0x80 >> i` — bits 7..4 for
the offset loop and bits 3..1 for the length loop — and its base
slice `&base[start..end]` carries no bounds check. -/

/-- `read_size_encoding` (pack.rs:281-293): varint with no guard on the
shift; the accumulated value wraps at the usize width.  (For streams
with ten or more continuation bytes the Rust shift itself overflows —
a debug-build panic — but no theorem below touches that region.) -/
def packReadSizeGo : List Nat → Nat → Nat → DRes (Nat × List Nat)
  | [], _, _ => .err "failed to fill whole buffer"
  | b :: rest, shift, acc =>
    let acc' := acc ||| (((b &&& 0x7F) <<< shift) % 2 ^ 64)
    if b &&& 0x80 == 0 then .ok (acc', rest)
    else packReadSizeGo rest (shift + 7) acc'

def packReadSize (rest : List Nat) : DRes (Nat × List Nat) := packReadSizeGo rest 0 0

/-- The conditional byte reads of the pack-local COPY decoding
(pack.rs:248-258): a byte follows iff `cmd & (0x80 >> i)` is set. -/
def packCopyLoop (cmd : Nat) : List Nat → Nat → Nat → List Nat → DRes (Nat × List Nat)
  | [], _, acc, rest => .ok (acc, rest)
  | i :: is, shiftBase, acc, rest =>
    if cmd &&& (0x80 >>> i) ≠ 0 then
      match rest with
      | [] => .err "failed to fill whole buffer"
      | b :: rest' => packCopyLoop cmd is shiftBase (acc ||| (b <<< ((i - shiftBase) * 8))) rest'
    else packCopyLoop cmd is shiftBase acc rest

/-- The instruction loop of the pack-local `apply_delta`
(pack.rs:244-272), fuelled by the remaining stream length. -/
def packApplyGo (base : List Nat) : Nat → List Nat → List Nat → DRes (List Nat)
  | _, [], result => .ok result
  | 0, _ :: _, _ => .err "out of fuel"
  | f + 1, cmd :: rest, result =>
    if cmd &&& 0x80 ≠ 0 then
      dbind (packCopyLoop cmd [0, 1, 2, 3] 0 0 rest) (fun x =>
        dbind (packCopyLoop cmd [4, 5, 6] 4 0 x.2) (fun y =>
          let off := x.1
          let len := if y.1 = 0 then 0x10000 else y.1
          -- `result.extend_from_slice(&base[start..end])`: unchecked slice
          match listSlice base off (off + len) with
          | some s => packApplyGo base f y.2 (result ++ s)
          | none => .crash))
    else
      if rest.length < cmd then .err "failed to fill whole buffer"
      else packApplyGo base f (rest.drop cmd) (result ++ rest.take cmd)

/-- The pack-local `apply_delta` (pack.rs:233-279). -/
def packApplyDelta (base delta : List Nat) : DRes (List Nat) := do
  let (baseSize, r1) ← packReadSize delta
  let (resultSize, r2) ← packReadSize r1
  if baseSize ≠ base.length then .err "Base size mismatch" else do
  let result ← packApplyGo base r2.length r2 []
  if result.length ≠ resultSize then .err "Result size mismatch" else pure result

/-- A frame of a parsed packfile (`PackObject`), payload bytes only. -/
inductive PackObject where
  | base (data : List Nat)
  | delta (baseHash : String) (data : List Nat)
  deriving DecidableEq, Repr

/-- Association-list lookup, modelling `HashMap::get`. -/
def alistLookup {κ α : Type} [DecidableEq κ] (key : κ) : List (κ × α) → Option α
  | [] => none
  | (k, v) :: rest => if k = key then some v else alistLookup key rest

/-- The byte-level core of `Packfile::apply_deltas` (pack.rs:176-197):
base frames pass their payload through, delta frames look up their
base and are resolved with the pack-local `apply_delta`.  (The
subsequent `parse_object` dispatch into `Object` values is
payload-preserving and plays no part in the decoding claims.) -/
def applyDeltasBytes (baseObjects : List (String × List Nat)) :
    List PackObject → DRes (List (List Nat))
  | [] => .ok []
  | .base data :: objs =>
    dbind (applyDeltasBytes baseObjects objs) (fun rest => .ok (data :: rest))
  | .delta baseHash data :: objs =>
    match alistLookup baseHash baseObjects with
    | none => .err ("Missing base object " ++ baseHash)
    | some baseData =>
      dbind (packApplyDelta baseData data) (fun reconstructed =>
        dbind (applyDeltasBytes baseObjects objs) (fun rest => .ok (reconstructed :: rest)))

/-! ## Index file codec (src/commands/index/index.rs)

`Index::write_to_file` and `Index::read_from_file` embedded as pure
byte-list codecs; the `File` writes/reads become list concatenation
and prefix consumption in the order of the source statements. -/

/-- `IndexEntry` (index.rs:17-28). The path is its byte sequence. -/
structure IndexEntry where
  mtime : Nat
  dev : Nat
  ino : Nat
  mode : Nat
  uid : Nat
  gid : Nat
  size : Nat
  hash : List Nat
  flags : Nat
  path : List Nat
  deriving DecidableEq, Repr

/-- Byte-wise lexicographic comparison, modelling the `Ord` used by
`entries.sort_by(|a, b| a.path.cmp(&b.path))` (exact for the
single-component relative paths the index stores). -/
def bytesLe : List Nat → List Nat → Bool
  | [], _ => true
  | _ :: _, [] => false
  | a :: as, b :: bs => if a < b then true else if b < a then false else bytesLe as bs

def insertByPath (e : IndexEntry) : List IndexEntry → List IndexEntry
  | [] => [e]
  | x :: xs => if bytesLe e.path x.path then e :: x :: xs else x :: insertByPath e xs

/-- Path-sorted view of the entries (index.rs:117-118). -/
def sortByPath (es : List IndexEntry) : List IndexEntry := es.foldr insertByPath []

/-- The signature bytes `"DIRC"`. -/
def dircBytes : List Nat := [68, 73, 82, 67]

/-- The per-entry bytes of `Index::write_to_file` (index.rs:121-150):
mtime u64, dev, ino, uid, gid, mode, size (u32 each), 20 hash bytes,
flags u16, path bytes, NUL — all integers big-endian. -/
def writeEntry (e : IndexEntry) : List Nat :=
  toBE 8 e.mtime ++ toBE 4 e.dev ++ toBE 4 e.ino ++ toBE 4 e.uid ++ toBE 4 e.gid
    ++ toBE 4 e.mode ++ toBE 4 e.size ++ e.hash ++ toBE 2 e.flags ++ e.path ++ [0]

/-- `Index::write_to_file` (index.rs:96-153): signature, version 2,
entry count, then the path-sorted entries. -/
def writeIndex (es : List IndexEntry) : List Nat :=
  dircBytes ++ toBE 4 2 ++ toBE 4 es.length
    ++ (sortByPath es).foldr (fun e acc => writeEntry e ++ acc) []

/-- `read_exact` into an `n`-byte buffer. -/
def readExact (n : Nat) (bs : List Nat) : DRes (List Nat × List Nat) :=
  if bs.length < n then .err "failed to fill whole buffer" else .ok (bs.take n, bs.drop n)

/-- The path loop of `Index::read_from_file` (index.rs:232-240):
single-byte reads until a NUL. -/
def readCString : List Nat → DRes (List Nat × List Nat)
  | [] => .err "failed to fill whole buffer"
  | 0 :: rest => .ok ([], rest)
  | b :: rest => dbind (readCString rest) (fun x => .ok (b :: x.1, x.2))

/-- One entry of `Index::read_from_file` (index.rs:186-241), consuming
fields in the order of the source reads: mtime, dev, ino, then
`entry.mode`, `entry.uid`, `entry.gid` (index.rs:211-218), size,
hash, flags, path. -/
def readEntry (bs : List Nat) : DRes (IndexEntry × List Nat) := do
  let (m, bs) ← readExact 8 bs
  let (d, bs) ← readExact 4 bs
  let (i, bs) ← readExact 4 bs
  let (mo, bs) ← readExact 4 bs
  let (u, bs) ← readExact 4 bs
  let (g, bs) ← readExact 4 bs
  let (s, bs) ← readExact 4 bs
  let (h, bs) ← readExact 20 bs
  let (f, bs) ← readExact 2 bs
  let (p, bs) ← readCString bs
  pure ({ mtime := fromBE m, dev := fromBE d, ino := fromBE i, mode := fromBE mo,
          uid := fromBE u, gid := fromBE g, size := fromBE s, hash := h,
          flags := fromBE f, path := p }, bs)

def readEntriesGo : Nat → List Nat → DRes (List IndexEntry)
  | 0, _ => .ok []
  | n + 1, bs => do
    let (e, bs') ← readEntry bs
    let es ← readEntriesGo n bs'
    pure (e :: es)

/-- `Index::read_from_file` (index.rs:157-248): signature and version
checks, then `count` entries in read order (the source inserts them
into the entry map keyed by path). -/
def readIndex (bs : List Nat) : DRes (List IndexEntry) := do
  let (sig, bs) ← readExact 4 bs
  if sig ≠ dircBytes then .err "Invalid index file signature" else do
  let (v, bs) ← readExact 4 bs
  if fromBE v ≠ 2 then .err "Unsupported index version" else do
  let (c, bs) ← readExact 4 bs
  readEntriesGo (fromBE c) bs

/-! ## Tree diff and rename detection
(src/storage/objects/tree.rs, src/storage/objects/change.rs) -/

/-- `DiffSummary` (change.rs:54-61). -/
structure DiffSummary where
  insertions : Nat
  removals : Nat
  textDiff : Option String
  deriving DecidableEq, Repr

/-- `ChangeType` (change.rs:11-50). -/
inductive ChangeType where
  | added (path : String) (newHash : String)
  | deleted (path : String) (oldHash : String)
  | modified (path : String) (oldHash newHash : String) (summary : Option DiffSummary)
  | renamed (oldPath newPath : String) (oldHash newHash : String) (summary : Option DiffSummary)
  deriving DecidableEq, Repr

/-- The key under which `ChangeSet::add_change` (change.rs:85-93) files
a change: its path, and for renames the new path. -/
def changeKey : ChangeType → String
  | .added path _ => path
  | .deleted path _ => path
  | .modified path _ _ _ => path
  | .renamed _ newPath _ _ _ => newPath

/-- Association-list insert-or-replace, modelling `HashMap::insert`. -/
def alistInsert {κ α : Type} [DecidableEq κ] (k : κ) (v : α) : List (κ × α) → List (κ × α)
  | [] => [(k, v)]
  | (k', v') :: rest => if k' = k then (k, v) :: rest else (k', v') :: alistInsert k v rest

/-- Association-list removal, modelling `HashMap::remove`. -/
def alistErase {κ α : Type} [DecidableEq κ] (k : κ) : List (κ × α) → List (κ × α)
  | [] => []
  | (k', v) :: rest => if k' = k then rest else (k', v) :: alistErase k rest

/-- The `subchanges` map of a `ChangeSet` (change.rs:65-72); the
`from`/`to` annotation strings play no part in the claims and are
not modelled. -/
abbrev CSet : Type := List (String × ChangeType)

/-- `ChangeSet::add_change`. -/
def addChange (cs : CSet) (c : ChangeType) : CSet := alistInsert (changeKey c) c cs

/-- `ChangeSet::get` (change.rs:127-129): `self.subchanges.clone()` — a
copy of the map, not a view into it. -/
def changesGet (cs : CSet) : List (String × ChangeType) := cs

/-- `Tree::collect_deleted_and_added` (tree.rs:317-336): hash-keyed
maps of the deleted and added paths. -/
def collectDeletedAdded (cs : CSet) : List (String × String) × List (String × String) :=
  cs.foldl
    (fun acc kv =>
      match kv.2 with
      | .deleted path oldHash => (alistInsert oldHash path acc.1, acc.2)
      | .added path newHash => (acc.1, alistInsert newHash path acc.2)
      | _ => acc)
    ([], [])

/-- `Tree::find_rename_candidates` (tree.rs:349-362):
`(old_path, new_path, hash)` for every deleted hash also added. -/
def findRenameCandidates : List (String × String) → List (String × String) →
    List (String × String × String)
  | [], _ => []
  | (h, delPath) :: rest, added =>
    match alistLookup h added with
    | some addPath => (delPath, addPath, h) :: findRenameCandidates rest added
    | none => findRenameCandidates rest added

/-- `Tree::detect_renames` (tree.rs:287-304).  The two
`changes.get().remove(..)` calls of the source operate on the clone
returned by `ChangeSet::get` and discard it; only the `add_change`
reaches `subchanges`. -/
def detectRenames (cs : CSet) : CSet :=
  let da := collectDeletedAdded cs
  let renames := findRenameCandidates da.1 da.2
  renames.foldl
    (fun cs r =>
      let _clone1 := alistErase r.1 (changesGet cs)
      let _clone2 := alistErase r.2.1 (changesGet cs)
      addChange cs (.renamed r.1 r.2.1 r.2.2 r.2.2 none))
    cs

/-- A tree entry as the diff engine sees it (tree.rs:18-27). -/
structure TreeEntryD where
  mode : String
  objectType : String
  objectHash : String
  name : String
  deriving DecidableEq, Repr

def treeLookup (name : String) : List TreeEntryD → Option TreeEntryD
  | [] => none
  | e :: es => if e.name = name then some e else treeLookup name es

/-- `Tree::process_entry_pair` (tree.rs:150-165) together with its
`handle_added`/`handle_deleted`/`handle_modified` helpers.
`summarize` stands for `calculate_diff_summary` (tree.rs:255-272),
the blob-store lookup computing a MODIFIED summary — irrelevant to
the rename claims. -/
def processEntryPair (summarize : String → String → Option DiffSummary) (cs : CSet)
    (path : String) : Option TreeEntryD → Option TreeEntryD → CSet
  | none, some t => addChange cs (.added path t.objectHash)
  | some f, none => addChange cs (.deleted path f.objectHash)
  | some f, some t =>
    if f.objectHash ≠ t.objectHash then
      addChange cs (.modified path f.objectHash t.objectHash
        (if f.objectType = "blob" ∧ t.objectType = "blob" then
          summarize f.objectHash t.objectHash
        else none))
    else cs
  | none, none => cs

/-- `Tree::compare_entries` (tree.rs:103-132) over the union of names.
The source iterates a `HashSet` in unspecified order; since each
name is processed exactly once and filed under its own key, the
resulting map does not depend on that order, and the embedding uses
from-tree names first, then the remaining to-tree names. -/
def compareEntries (summarize : String → String → Option DiffSummary)
    (fromT toT : List TreeEntryD) : CSet :=
  let names :=
    fromT.map TreeEntryD.name
      ++ (toT.map TreeEntryD.name).filter (fun n => ¬ (fromT.map TreeEntryD.name).contains n)
  names.foldl
    (fun cs n => processEntryPair summarize cs n (treeLookup n fromT) (treeLookup n toT))
    []

/-- `Tree::compare_trees` (tree.rs:55-61): compare the entries, then
run rename detection. -/
def compareTrees (summarize : String → String → Option DiffSummary)
    (fromT toT : List TreeEntryD) : CSet :=
  detectRenames (compareEntries summarize fromT toT)

/-! ## Workdir status (src/commands/status/status.rs) -/

/-- The `fs::metadata` fields the index and status code consult. -/
structure FileMeta where
  mtime : Nat
  dev : Nat
  ino : Nat
  mode : Nat
  uid : Nat
  gid : Nat
  size : Nat
  deriving DecidableEq, Repr

/-- `IndexEntry::new` (index.rs:45-60) with the blob hash and flags as
`add` leaves them: every 64-bit metadata field is truncated by an
`as` cast to its 32-bit slot, `mtime` kept as u64. -/
def indexEntryNew (path : List Nat) (m : FileMeta) : IndexEntry :=
  { mtime := u64 m.mtime, dev := u32 m.dev, ino := u32 m.ino, mode := u32 m.mode,
    uid := u32 m.uid, gid := u32 m.gid, size := u32 m.size,
    hash := List.replicate 20 0, flags := 0, path := path }

/-- The first loop of `get_status` (status.rs:54-75) over the index
entries: absent from the workdir ⇒ deleted; `mtime as u64` or
`size as u32` differing from the stored entry ⇒ modified; else
staged (`added`).  Result `(added, modified, deleted)` in iteration
order. -/
def statusScan (wd : List (List Nat × FileMeta)) :
    List IndexEntry → List (List Nat) × List (List Nat) × List (List Nat)
  | [] => ([], [], [])
  | e :: rest =>
    let acc := statusScan wd rest
    match alistLookup e.path wd with
    | none => (acc.1, acc.2.1, e.path :: acc.2.2)
    | some meta =>
      if u64 meta.mtime ≠ e.mtime ∨ u32 meta.size ≠ e.size then
        (acc.1, e.path :: acc.2.1, acc.2.2)
      else (e.path :: acc.1, acc.2.1, acc.2.2)

/-- The workdir walk of `get_status` (status.rs:78-113).  Every indexed
path was put into `processed_files` by the first loop, so the
re-check branch for indexed files is unreachable; it is embedded
nonetheless.  Result `(extra modified, untracked)`. -/
def statusWalk (idx : List IndexEntry) (processed : List (List Nat)) :
    List (List Nat × FileMeta) → List (List Nat) × List (List Nat)
  | [] => ([], [])
  | (p, meta) :: rest =>
    let acc := statusWalk idx processed rest
    if processed.contains p then acc
    else
      match alistLookup p (idx.map (fun e => (e.path, e))) with
      | some e =>
        if u64 meta.mtime ≠ e.mtime ∨ u32 meta.size ≠ e.size then (p :: acc.1, acc.2)
        else acc
      | none => (acc.1, p :: acc.2)

/-- `get_status` (status.rs:38-122) over an index snapshot and a
workdir association `path ↦ metadata`: returns
`(added, modified, deleted, untracked)`. -/
def getStatus (idx : List IndexEntry) (wd : List (List Nat × FileMeta)) :
    List (List Nat) × List (List Nat) × List (List Nat) × List (List Nat) :=
  let scan := statusScan wd idx
  let walk := statusWalk idx (idx.map IndexEntry.path) wd
  (scan.1, scan.2.1 ++ walk.1, scan.2.2, walk.2)

/-! ## Commit side effects (src/commands/commit/commit.rs) -/

/-- The observable steps of `commit_command`, in the claim's
vocabulary.  `treeBuild` covers `create_tree` (which already writes
blob and subtree objects as it walks), `treeWrite` the `store_tree`
of the root, `indexLoad`/`indexWrite` the `read_from_file` /
`write_to_file` pair on the index file. -/
inductive CommitEvent where
  | treeBuild
  | treeWrite
  | commitWrite
  | branchAdvance
  | indexLoad
  | indexWrite
  deriving DecidableEq, Repr

/-- Which events write to the filesystem. -/
def isFileWrite : CommitEvent → Bool
  | .treeBuild => true
  | .treeWrite => true
  | .commitWrite => true
  | .branchAdvance => true
  | .indexLoad => false
  | .indexWrite => true

/-- The state `commit_command` consults before its side effects. -/
structure CommitFs where
  voxExists : Bool
  indexExists : Bool
  deriving DecidableEq, Repr

/-- `commit_command` (commit.rs:11-50) as its event trace: repository
check (commit.rs:13), index existence check — not a load —
(commit.rs:19), `create_tree` (commit.rs:26), `store_tree`
(commit.rs:27), `commit.save` (commit.rs:37), `update_current_branch`
(commit.rs:40), then `index.read_from_file` and `index.write_to_file`
(commit.rs:42-44). -/
def commitCommand (fs : CommitFs) : DRes (List CommitEvent) :=
  if !fs.voxExists then .err "Not a vox repository (or any parent)"
  else if !fs.indexExists then .err "Nothing to commit"
  else
    .ok ([CommitEvent.treeBuild] ++ [CommitEvent.treeWrite] ++ [CommitEvent.commitWrite]
      ++ [CommitEvent.branchAdvance] ++ [CommitEvent.indexLoad] ++ [CommitEvent.indexWrite])

/-- The write events strictly after the branch advance in a trace. -/
def writesAfterBranchAdvance (tr : List CommitEvent) : List CommitEvent :=
  ((tr.dropWhile (fun e => e ≠ CommitEvent.branchAdvance)).drop 1).filter isFileWrite

/-! ## Branch creation (src/objects/branch.rs) -/

/-- `Branch::new` (branch.rs:13-33) reduced to its observable outcome:
with the branch file already present it fails; otherwise it writes
`format!("\n{}", commit_hash)` (branch.rs:27) into the branch file,
whose content the embedding returns. -/
def branchNew (branchFileExists : Bool) (name commitHash : String) : DRes String :=
  if branchFileExists then .err ("Branch " ++ name ++ " already exists")
  else .ok ("\n" ++ commitHash)

/-! ## Shared concrete inputs -/

/-- The bytes of `"Hello, world"` (spec scenario S6). -/
def hwBytes : List Nat := [72, 101, 108, 108, 111, 44, 32, 119, 111, 114, 108, 100]

/-- The S6 delta stream: base_size 12, result_size 5, one COPY of
length 5 from offset 0. -/
def s6Delta : List Nat := [0x0C, 0x05, 0x90, 0x05]

/-- A delta stream declaring base_size 0 and result_size `2^63`
(a ten-byte varint the `read_size` shift guard admits): `0x00`, nine
continuation bytes `0x80`, then `0x01` contributing `1 << 63`. -/
def overflowDelta : List Nat := 0x00 :: List.replicate 9 0x80 ++ [0x01]

/-- A sample index entry with pairwise-distinct uid, gid and mode. -/
def c1EntryWritten : IndexEntry :=
  { mtime := 7, dev := 4, ino := 5, mode := 3, uid := 1, gid := 2, size := 6,
    hash := List.replicate 20 0, flags := 8, path := [97] }

/-- What `read_from_file` recovers from the saved `c1EntryWritten`:
mode, uid, gid cyclically permuted. -/
def c1EntryRead : IndexEntry :=
  { mtime := 7, dev := 4, ino := 5, mode := 1, uid := 2, gid := 3, size := 6,
    hash := List.replicate 20 0, flags := 8, path := [97] }

/-! ## Basic lemmas -/

@[simp] theorem dbind_ok {α β : Type} (a : α) (f : α → DRes β) : dbind (.ok a) f = f a := rfl

@[simp] theorem dbind_err {α β : Type} (m : String) (f : α → DRes β) :
    dbind (.err m) f = .err m := rfl

@[simp] theorem dbind_crash {α β : Type} (f : α → DRes β) :
    dbind (DRes.crash : DRes α) f = .crash := rfl

@[simp] theorem bind_eq_dbind {α β : Type} (x : DRes α) (f : α → DRes β) :
    x >>= f = dbind x f := rfl

@[simp] theorem pure_eq_ok {α : Type} (a : α) : (pure a : DRes α) = .ok a := rfl

/-! ## Claim theorems -/

/-- Claim C1.  The index round-trip does not preserve every field: the
writer emits uid, gid, mode (index.rs:128-133) where the reader
consumes mode, uid, gid (index.rs:211-218), so loading a saved entry
returns its ownership and mode fields cyclically permuted.  The
entry below with uid 1, gid 2, mode 3 comes back with mode 1,
uid 2, gid 3. -/
theorem index_roundtrip_permutes_ownership_fields :
    readIndex (writeIndex [c1EntryWritten]) = .ok [c1EntryRead] ∧
    c1EntryRead ≠ c1EntryWritten := by
  constructor
  · decide
  · decide

/-- Claim C2.  `Blob::hash` feeds SHA-1 the bare payload, not
`"blob <len>\0" || payload`: on `"hello\n"` it returns
`f572d396…` (SHA-1 of the six payload bytes), while SHA-1 of the
claimed header-prefixed input is the Git hash `ce013625…` the claim
expects. -/
theorem blob_hash_omits_header :
    blobHash helloBytes = "f572d396fae9206628714fb2ce00f72e94f2258f" ∧
    sha1Hex (objectHeader blobTypeBytes helloBytes.length ++ helloBytes) =
      "ce013625030ba8dba906f756967f9e9ca394464a" ∧
    blobHash helloBytes ≠ "ce013625030ba8dba906f756967f9e9ca394464a" := by
  refine ⟨by decide, by decide, by decide⟩

/-- Claim C3.  The pack-local `apply_delta` that
`Packfile::apply_deltas` uses masks the COPY command byte with
`0x80 >> i` (bits 7..4 for the offset, 3..1 for the length) instead
of the claimed `1 << i` scheme: on the S6 delta it misreads bit 7 and
bit 4 as offset-byte flags, runs out of bytes, and fails, where the
claimed decoding (implemented by `delta.rs`) returns `"Hello"`. -/
theorem pack_copy_decoding_diverges :
    applyDeltasBytes [("b8f9", hwBytes)] [.delta "b8f9" s6Delta] =
      .err "failed to fill whole buffer" ∧
    packApplyDelta hwBytes s6Delta = .err "failed to fill whole buffer" ∧
    applyDelta hwBytes s6Delta = .ok [72, 101, 108, 108, 111] := by
  refine ⟨by decide, by decide, by decide⟩

/-- Claim C4.  Scenario S6: applying the delta
`0x0C 0x05 0x90 0x05` to the 12-byte base `"Hello, world"`
succeeds and returns exactly the 5 bytes `"Hello"`. -/
theorem apply_delta_s6 :
    applyDelta hwBytes s6Delta = .ok [72, 101, 108, 108, 111] := by decide

/-- Claim C5 (counterexample).  A delta stream whose instruction byte
is 0 is not rejected: on the empty base, the stream
`0x00 0x00 0x00` (base_size 0, result_size 0, one `cmd = 0`
instruction) is applied successfully. -/
theorem apply_delta_zero_cmd_accepted :
    applyDelta [] [0, 0, 0] = .ok [] := by decide

/-- Claim C5 (amended).  `parse_ops` treats `cmd = 0` as an INSERT of
zero literal bytes: parsing a stream starting with a 0 instruction
byte succeeds exactly when the remainder parses, contributing
`Insert []`; concretely, applying `0x00 0x00 0x00` to the empty base
succeeds with empty output. -/
theorem parse_ops_zero_cmd_empty_insert :
    (∀ (fuel : Nat) (rest : List Nat),
      parseOpsGo (fuel + 1) (0 :: rest) =
        dbind (parseOpsGo fuel rest) (fun ops => .ok (DeltaOp.insert [] :: ops))) ∧
    applyDelta [] [0, 0, 0] = .ok [] := by
  constructor
  · intro fuel rest
    simp [parseOpsGo, parseOp, parseInsertData]
  · decide

/-- Claim C6.  `detect_renames` calls `remove` on the clone returned by
`ChangeSet::get`, so the paired DELETED entry survives: comparing the
tree `{a.txt ↦ h1}` against `{b.txt ↦ h1}` leaves both the
`DELETED a.txt` entry and the `RENAMED a.txt → b.txt` entry in the
final ChangeSet (only the ADDED entry is overwritten, since the
rename is filed under the same new-path key). -/
theorem detect_renames_leaves_deleted_entry :
    compareTrees (fun _ _ => none)
        [{ mode := "100644", objectType := "blob", objectHash := "h1", name := "a.txt" }]
        [{ mode := "100644", objectType := "blob", objectHash := "h1", name := "b.txt" }] =
      [("a.txt", .deleted "a.txt" "h1"),
       ("b.txt", .renamed "a.txt" "b.txt" "h1" "h1" none)] ∧
    alistLookup "a.txt"
        (compareTrees (fun _ _ => none)
          [{ mode := "100644", objectType := "blob", objectHash := "h1", name := "a.txt" }]
          [{ mode := "100644", objectType := "blob", objectHash := "h1", name := "b.txt" }]) =
      some (.deleted "a.txt" "h1") := by
  refine ⟨by decide, by decide⟩

/-- Claim C7 (counterexample).  The branch advance is not the last
observable side effect of `commit_command`: on a repository with an
index, the trace continues after `branchAdvance` with an index
reload and an index file write. -/
theorem commit_writes_after_branch_advance :
    dbind (commitCommand { voxExists := true, indexExists := true })
        (fun tr => .ok (writesAfterBranchAdvance tr)) =
      .ok [CommitEvent.indexWrite] := by decide

/-- Claim C7 (amended).  The commit steps occur in the order tree build
(with its interleaved object writes), tree write, commit write,
branch advance, index load, index rewrite — the index is only
checked for existence up front, and the final index rewrite follows
the branch advance. -/
theorem commit_event_order :
    commitCommand { voxExists := true, indexExists := true } =
      .ok [CommitEvent.treeBuild, CommitEvent.treeWrite, CommitEvent.commitWrite,
           CommitEvent.branchAdvance, CommitEvent.indexLoad, CommitEvent.indexWrite] := by
  decide

/-! ### Panic freedom of the public delta applier -/

theorem dbind_ne_crash {α β : Type} {x : DRes α} {f : α → DRes β}
    (hx : x ≠ .crash) (hf : ∀ a, f a ≠ .crash) : dbind x f ≠ .crash := by
  cases x with
  | ok a => exact hf a
  | err m => simp [dbind]
  | crash => exact absurd rfl hx

theorem readSizeGo_ne_crash : ∀ (l : List Nat) (shift acc : Nat),
    readSizeGo l shift acc ≠ DRes.crash := by
  intro l
  induction l with
  | nil => intro shift acc; simp [readSizeGo]
  | cons b rest ih =>
    intro shift acc
    simp only [readSizeGo]
    split
    · simp
    · split
      · simp
      · exact ih _ _

theorem parseCopyLoop_ne_crash (cmd : Nat) : ∀ (idxs : List Nat) (sb acc : Nat)
    (rest : List Nat), parseCopyLoop cmd idxs sb acc rest ≠ DRes.crash := by
  intro idxs
  induction idxs with
  | nil => intro sb acc rest; simp [parseCopyLoop]
  | cons i is ih =>
    intro sb acc rest
    simp only [parseCopyLoop]
    split
    · cases rest with
      | nil => simp
      | cons b rest' => exact ih _ _ _
    · exact ih _ _ _

theorem parseCopyOp_ne_crash (cmd : Nat) (rest : List Nat) :
    parseCopyOp cmd rest ≠ DRes.crash := by
  simp only [parseCopyOp, bind_eq_dbind, pure_eq_ok]
  apply dbind_ne_crash (parseCopyLoop_ne_crash cmd _ _ _ _)
  rintro ⟨off, r1⟩
  apply dbind_ne_crash (parseCopyLoop_ne_crash cmd _ _ _ _)
  rintro ⟨len, r2⟩
  simp

theorem parseInsertData_ne_crash (cmd : Nat) (rest : List Nat) :
    parseInsertData cmd rest ≠ DRes.crash := by
  simp only [parseInsertData]
  split <;> simp

theorem parseOp_ne_crash (cmd : Nat) (rest : List Nat) :
    parseOp cmd rest ≠ DRes.crash := by
  simp only [parseOp]
  split
  · exact dbind_ne_crash (parseCopyOp_ne_crash cmd rest) (fun x => by simp)
  · exact dbind_ne_crash (parseInsertData_ne_crash cmd rest) (fun x => by simp)

theorem parseOpsGo_ne_crash : ∀ (fuel : Nat) (rest : List Nat),
    parseOpsGo fuel rest ≠ DRes.crash := by
  intro fuel
  induction fuel with
  | zero =>
    intro rest
    cases rest <;> simp [parseOpsGo]
  | succ f ih =>
    intro rest
    cases rest with
    | nil => simp [parseOpsGo]
    | cons cmd rest' =>
      simp only [parseOpsGo, bind_eq_dbind, pure_eq_ok]
      apply dbind_ne_crash (parseOp_ne_crash cmd rest')
      rintro ⟨op, r⟩
      exact dbind_ne_crash (ih r) (fun ops => by simp)

theorem applyOps_ne_crash (base : List Nat) : ∀ (ops : List DeltaOp) (acc : List Nat),
    applyOps base ops acc ≠ DRes.crash := by
  intro ops
  induction ops with
  | nil => intro acc; simp [applyOps]
  | cons op rest ih =>
    intro acc
    cases op with
    | copy off len =>
      simp only [applyOps]
      split
      · simp
      · split
        · simp
        · rename_i hov hrange
          have hle : off + len ≤ base.length := by
            rcases not_or.mp hrange with ⟨_, h2⟩
            exact Nat.le_of_not_lt h2
          rw [listSlice, if_pos ⟨Nat.le_add_right off len, hle⟩]
          exact ih _
    | insert d =>
      simp only [applyOps]
      exact ih _

/-- Claim C10 (counterexample).  The public `apply_delta` can panic:
on the empty base and the delta `0x00 0x80×9 0x01` — declared
base_size 0, declared result_size `2^63` — header parsing and the
base-size check succeed, no operations follow, and
`Vec::with_capacity(2^63)` at delta.rs:254 panics with "capacity
overflow", so the function neither returns `Ok` nor an error. -/
theorem apply_delta_capacity_overflow :
    applyDelta [] overflowDelta = DRes.crash := by decide

/-- Claim C10 (amended).  For every pair (base, delta), `apply_delta`
returns `Ok` or an error — never reaching an unchecked slice — with
the single exception of the `Vec::with_capacity` allocation: every
panic arises from a well-formed header whose declared result size
exceeds `isize::MAX`.  A truncated stream, an INSERT running past
the end of the delta, a COPY range outside the base, a copy-length
overflow past `usize::MAX`, and a variable-length size exceeding the
usize width are each rejected with an error. -/
theorem apply_delta_total :
    (∀ base delta, applyDelta base delta = DRes.crash →
      ∃ r1 rs r2, readSize delta = .ok (base.length, r1) ∧ readSize r1 = .ok (rs, r2) ∧
        ISIZE_MAX < rs) ∧
    (∀ base off len ops acc, USIZE_MAX < off + len →
      applyOps base (DeltaOp.copy off len :: ops) acc = .err "Copy length overflow") ∧
    applyDelta hwBytes [0x0C] = .err "Unexpected end of delta" ∧
    applyDelta [] [0x00, 0x05, 0x05, 97, 98] = .err "Insert operation overflows delta data" ∧
    applyDelta [97, 98] [0x02, 0x05, 0x90, 0x05] = .err "Copy range exceeds base size" ∧
    applyDelta [] (List.replicate 10 0xFF) =
      .err "Variable-length size exceeds maximum for usize" := by
  refine ⟨?_, ?_, by decide, by decide, by decide, by decide⟩
  · intro base delta hcrash
    rw [applyDelta, bind_eq_dbind] at hcrash
    cases hr1 : readSize delta with
    | err m => rw [hr1] at hcrash; simp at hcrash
    | crash => exact absurd hr1 (readSizeGo_ne_crash delta 0 0)
    | ok v1 =>
      obtain ⟨bs, r1⟩ := v1
      simp only [hr1, dbind_ok, bind_eq_dbind] at hcrash
      cases hr2 : readSize r1 with
      | err m => rw [hr2] at hcrash; simp at hcrash
      | crash => exact absurd hr2 (readSizeGo_ne_crash r1 0 0)
      | ok v2 =>
        obtain ⟨rs, r2⟩ := v2
        simp only [hr2, dbind_ok] at hcrash
        by_cases hbs : base.length ≠ bs
        · rw [if_pos hbs] at hcrash; cases hcrash
        · rw [if_neg hbs] at hcrash
          rw [not_not] at hbs
          subst hbs
          cases hops : parseOps r2 with
          | err m => rw [hops] at hcrash; simp at hcrash
          | crash => exact absurd hops (parseOpsGo_ne_crash r2.length r2)
          | ok ops =>
            simp only [hops, dbind_ok] at hcrash
            by_cases hcap : ISIZE_MAX < rs
            · exact ⟨r1, rs, r2, rfl, hr2, hcap⟩
            · simp only [if_neg hcap, bind_eq_dbind] at hcrash
              cases happ : applyOps base ops [] with
              | err m => rw [happ] at hcrash; simp at hcrash
              | crash => exact absurd happ (applyOps_ne_crash base ops [])
              | ok result =>
                simp only [happ, dbind_ok] at hcrash
                revert hcrash
                split <;> simp
  · intro base off len ops acc h
    simp only [applyOps]
    rw [if_pos h]

theorem apply_delta_total_witness :
    applyDelta [] overflowDelta = DRes.crash ∧
    (∃ r1 rs r2, readSize overflowDelta = .ok (List.length ([] : List Nat), r1) ∧
      readSize r1 = .ok (rs, r2) ∧ ISIZE_MAX < rs) ∧
    USIZE_MAX < USIZE_MAX + 1 ∧
    applyOps [] [DeltaOp.copy USIZE_MAX 1] [] = .err "Copy length overflow" :=
  ⟨by decide, apply_delta_total.1 [] overflowDelta (by decide), Nat.lt_succ_self _,
    apply_delta_total.2.1 [] USIZE_MAX 1 [] [] (Nat.lt_succ_self _)⟩

/-! ### Status soundness -/

theorem statusScan_modified_mem (wd : List (List Nat × FileMeta)) :
    ∀ (idx : List IndexEntry) (e : IndexEntry) (meta : FileMeta),
    e ∈ idx → alistLookup e.path wd = some meta →
    (u64 meta.mtime ≠ e.mtime ∨ u32 meta.size ≠ e.size) →
    e.path ∈ (statusScan wd idx).2.1 := by
  intro idx
  induction idx with
  | nil => intro e meta hmem; cases hmem
  | cons x xs ih =>
    intro e meta hmem hwd hdiff
    rcases List.mem_cons.mp hmem with heq | hmem'
    · subst heq
      simp only [statusScan]
      split
      · rename_i hnone; rw [hwd] at hnone; cases hnone
      · rename_i m hsome
        rw [hwd] at hsome
        injection hsome with hm
        subst hm
        rw [if_pos hdiff]
        exact List.mem_cons_self _ _
    · have hx := ih e meta hmem' hwd hdiff
      simp only [statusScan]
      split
      · exact hx
      · split
        · exact List.mem_cons_of_mem _ hx
        · exact hx

theorem statusScan_modified_inv (wd : List (List Nat × FileMeta)) :
    ∀ (idx : List IndexEntry) (p : List Nat),
    p ∈ (statusScan wd idx).2.1 →
    ∃ e meta, e ∈ idx ∧ e.path = p ∧ alistLookup e.path wd = some meta ∧
      (u64 meta.mtime ≠ e.mtime ∨ u32 meta.size ≠ e.size) := by
  intro idx
  induction idx with
  | nil => intro p h; simp [statusScan] at h
  | cons x xs ih =>
    intro p h
    simp only [statusScan] at h
    have lift : (∃ e meta, e ∈ xs ∧ e.path = p ∧ alistLookup e.path wd = some meta ∧
        (u64 meta.mtime ≠ e.mtime ∨ u32 meta.size ≠ e.size)) →
        ∃ e meta, e ∈ x :: xs ∧ e.path = p ∧ alistLookup e.path wd = some meta ∧
        (u64 meta.mtime ≠ e.mtime ∨ u32 meta.size ≠ e.size) := by
      rintro ⟨e, m, hm, he, hl, hd⟩
      exact ⟨e, m, List.mem_cons_of_mem _ hm, he, hl, hd⟩
    revert h
    split
    · intro h; exact lift (ih p h)
    · rename_i m hsome
      split
      · rename_i hc
        intro h
        rcases List.mem_cons.mp h with h1 | h2
        · exact ⟨x, m, List.mem_cons_self _ _, h1.symm, hsome, hc⟩
        · exact lift (ih p h2)
      · intro h; exact lift (ih p h)

theorem statusWalk_modified_not_processed (idx : List IndexEntry)
    (processed : List (List Nat)) :
    ∀ (wd : List (List Nat × FileMeta)) (p : List Nat),
    p ∈ (statusWalk idx processed wd).1 → processed.contains p = false := by
  intro wd
  induction wd with
  | nil => intro p h; simp [statusWalk] at h
  | cons x xs ih =>
    intro p h
    simp only [statusWalk] at h
    revert h
    split
    · intro h; exact ih p h
    · rename_i hp
      split
      · split
        · intro h
          rcases List.mem_cons.mp h with h1 | h2
          · subst h1
            exact Bool.eq_false_iff.mpr hp
          · exact ih p h2
        · intro h; exact ih p h
      · intro h; exact ih p h

/-- Claim C8 (amended).  For an indexed file present in the workdir: if
its metadata is untouched since `add` it never appears in the
modified set, and if its size — as truncated to the stored 32 bits
by the `as u32` casts on both sides of the comparison — has changed,
it always appears in the modified set. -/
theorem status_modified_sound (idx : List IndexEntry) (wd : List (List Nat × FileMeta))
    (p : List Nat) (metaAdd metaNow : FileMeta)
    (hnodup : (idx.map IndexEntry.path).Nodup)
    (hmem : indexEntryNew p metaAdd ∈ idx)
    (hwd : alistLookup p wd = some metaNow) :
    (metaNow = metaAdd → p ∉ (getStatus idx wd).2.1) ∧
    (u32 metaNow.size ≠ u32 metaAdd.size → p ∈ (getStatus idx wd).2.1) := by
  constructor
  · intro heq hmod
    subst heq
    simp only [getStatus] at hmod
    rcases List.mem_append.mp hmod with hscan | hwalk
    · obtain ⟨e, m, hm, he, hl, hd⟩ := statusScan_modified_inv wd idx p hscan
      have hee : e = indexEntryNew p metaNow := by
        refine List.inj_on_of_nodup_map hnodup hm hmem ?_
        rw [he]; rfl
      subst hee
      simp only [indexEntryNew] at hl hd
      rw [hwd] at hl
      injection hl with hl'
      subst hl'
      simp at hd
    · have hcontains := statusWalk_modified_not_processed idx (idx.map IndexEntry.path) wd p hwalk
      have hpmem : p ∈ idx.map IndexEntry.path := by
        simpa [indexEntryNew] using List.mem_map_of_mem IndexEntry.path hmem
      rw [List.contains, List.elem_eq_true_of_mem hpmem] at hcontains
      cases hcontains
  · intro hsz
    have hm := statusScan_modified_mem wd idx (indexEntryNew p metaAdd) metaNow hmem
      (by simpa [indexEntryNew] using hwd)
      (by simp only [indexEntryNew]; exact Or.inr hsz)
    simp only [getStatus]
    exact List.mem_append_left _ (by simpa [indexEntryNew] using hm)

theorem status_modified_sound_witness :
    u32 (⟨5, 0, 0, 0, 0, 0, 11⟩ : FileMeta).size ≠ u32 (⟨5, 0, 0, 0, 0, 0, 10⟩ : FileMeta).size ∧
    [97] ∈ (getStatus [indexEntryNew [97] ⟨5, 0, 0, 0, 0, 0, 10⟩]
      [([97], ⟨5, 0, 0, 0, 0, 0, 11⟩)]).2.1 :=
  ⟨by decide,
    (status_modified_sound [indexEntryNew [97] ⟨5, 0, 0, 0, 0, 0, 10⟩]
      [([97], ⟨5, 0, 0, 0, 0, 0, 11⟩)] [97] ⟨5, 0, 0, 0, 0, 0, 10⟩ ⟨5, 0, 0, 0, 0, 0, 11⟩
      (by decide) (by decide) (by decide)).2 (by decide)⟩

/-- Claim C8 (counterexample).  `get_status` compares
`metadata.size() as u32` against the stored 32-bit size: a file whose
size grew from 10 bytes to `2^32 + 10` bytes with unchanged mtime is
reported as staged, not modified — so a changed size does not always
put the file in the modified set. -/
theorem status_size_change_missed :
    (2 ^ 32 + 10 : Nat) ≠ 10 ∧
    getStatus [indexEntryNew [97] ⟨5, 0, 0, 0, 0, 0, 10⟩]
        [([97], ⟨5, 0, 0, 0, 0, 0, 2 ^ 32 + 10⟩)] =
      ([[97]], [], [], []) := by
  refine ⟨by decide, by decide⟩

/-- Claim C9.  `Branch::new` does fail when the branch file exists, but
writes `"\n<start-hash>"` — the newline precedes the hash
(branch.rs:27, `format!("\n{}", commit_hash)`) — instead of the
claimed `"<start-hash>\n"`. -/
theorem branch_new_leading_newline :
    branchNew true "feature" "a94a8fe5ccb19ba61c4c0873d391e987982fbbd3" =
      .err "Branch feature already exists" ∧
    branchNew false "feature" "a94a8fe5ccb19ba61c4c0873d391e987982fbbd3" =
      .ok "\na94a8fe5ccb19ba61c4c0873d391e987982fbbd3" ∧
    ("\na94a8fe5ccb19ba61c4c0873d391e987982fbbd3" : String) ≠
      "a94a8fe5ccb19ba61c4c0873d391e987982fbbd3\n" := by
  refine ⟨by decide, by decide, by decide⟩

end Vox
